import Mathlib

/-!
# Verification of the `searchInfo` concurrent search orchestrator

Shallow embedding of the Go package `demo/searchInfo/search`
(files `search.go`, `match.go`, `default.go`, `feed.go`).

The package fans out one goroutine per feed, each goroutine runs `Match`
(which calls the feed's matcher and forwards results into an unbuffered
channel), a sentinel goroutine closes the channel once the `WaitGroup`
count reaches zero, and `Display` drains the channel.

Pure parts (`Match`, `Register`, matcher resolution, `defaultMatcher`,
`RetrieveFeeds`) are embedded as Lean functions; Go's `error` values are
`Option String`, Go's nil slice is `[]`.  The concurrent part of `Run` is
embedded as a small-step transition relation `Step` on a `RunState`
recording each worker's remaining results to forward, the `WaitGroup`
counter, whether the channel has been closed, and the stream of results
received so far by `Display` (each tagged with the index of the worker
that sent it; a send on the unbuffered channel and its receipt by
`Display` are a single rendezvous event).
-/

namespace SearchInfo

/-- `Feed` from `feed.go`: name, URI and the type tag selecting a matcher.
(The Go field `Type` is rendered `type`, a non-keyword in Lean.) -/
structure Feed where
  Name : String
  URI : String
  type : String
deriving DecidableEq, Repr

/-- `Result` from `match.go`: one matched unit, a field label and content. -/
structure Result where
  Field : String
  Content : String
deriving DecidableEq, Repr

/-- The `Matcher` interface from `match.go`:
`Search(feed, searchTerm) ([]*Result, error)`.  A Go call can return both
a (possibly non-empty) result slice and a non-nil error, so the codomain
is a pair, not a sum. -/
def Matcher : Type := Feed → String → List Result × Option String

/-- The matcher registry, Go's `var matchers = make(map[string]Matcher)`,
as an association list keyed by the type tag. -/
def Registry : Type := List (String × Matcher)

/-- `Match` from `match.go`: call the matcher's `Search`; on a non-nil
error, log it and return without forwarding anything; otherwise forward
each result, in slice order, into the channel.  Embedded as the pair
(results forwarded into the channel, log lines emitted). -/
def Match (m : Matcher) (feed : Feed) (searchTerm : String) :
    List Result × List String :=
  let (searchResults, err) := m feed searchTerm
  match err with
  | some e => ([], [e])
  | none => (searchResults, [])

/-- `defaultMatcher.Search` from `default.go`: returns `nil, nil`,
i.e. an empty result sequence and no error, for every feed and term. -/
def defaultMatcher : Matcher := fun _ _ => ([], none)

/-- `Register` from `search.go`: if the tag is already bound,
`log.Fatalln` terminates the process (embedded as `none`); otherwise the
binding is added and the new registry returned. -/
def Register (matchers : Registry) (feedType : String) (matcher : Matcher) :
    Option Registry :=
  match List.lookup feedType matchers with
  | some _ => none
  | none => some ((feedType, matcher) :: matchers)

/-- The matcher lookup in `Run` (search.go lines 32–35):
`matcher, exists := matchers[feed.Type]; if !exists { matcher = matchers["default"] }`.
`none` means even `"default"` is unbound, in which case the Go worker
would call `Search` on a nil interface and panic. -/
def resolveMatcher (matchers : Registry) (feedType : String) : Option Matcher :=
  match List.lookup feedType matchers with
  | some m => some m
  | none => List.lookup "default" matchers

/-- `RetrieveFeeds` from `feed.go`: open the data file (the open outcome
is a parameter: either an error or the file contents) and JSON-decode it
(the decoder is a parameter returning the decoded slice and the decode
error, mirroring `err = json.NewDecoder(file).Decode(&feeds)`).
On an open error Go returns `nil, err`. -/
def RetrieveFeeds (openRes : Except String String)
    (decode : String → List Feed × Option String) :
    List Feed × Option String :=
  match openRes with
  | .error e => ([], some e)
  | .ok contents => decode contents

/-- What each worker goroutine will forward into the channel: the first
component of `Match` run with the matcher resolved for the feed's type
tag.  `none` when resolution fails entirely (nil-interface panic in Go). -/
def runForwards (matchers : Registry) (feeds : List Feed) (searchTerm : String) :
    Option (List (List Result)) :=
  feeds.mapM fun f => (resolveMatcher matchers f.type).map fun m => (Match m f searchTerm).1

/-- A worker's channel-facing state inside `Run`: `some rs` means the
goroutine is still live with `rs` left to forward before its deferred
`waitGroup.Done()`; `none` means `Done` has been called. -/
abbrev WorkerState := Option (List Result)

/-- The mutable state shared inside one execution of `Run`:
the per-worker states, the `WaitGroup` counter, whether `close(results)`
has happened, and the results `Display` has received so far (tagged with
the sending worker's index). -/
structure RunState where
  workers : List WorkerState
  counter : Nat
  closed : Bool
  delivered : List (Nat × Result)
deriving DecidableEq, Repr

/-- The state of `Run` just after `waitGroup.Add(len(feeds))` and the
launching of the goroutines, given each worker's forward list. -/
def initState (fss : List (List Result)) : RunState :=
  { workers := fss.map some
    counter := fss.length
    closed := false
    delivered := [] }

/-- One scheduling step of `Run`'s goroutines:
* `send`: a live worker performs `results <- result` and `Display`
  receives it (one rendezvous on the unbuffered channel);
* `done`: a worker that has forwarded everything runs its deferred
  `waitGroup.Done()`;
* `close`: the sentinel goroutine returns from `waitGroup.Wait()` (the
  counter is zero) and executes `close(results)`.
A `send` is deliberately not guarded by `closed = false`: sending on a
closed channel is a Go runtime panic, and its impossibility is proved,
not assumed. -/
inductive Step : RunState → RunState → Prop where
  | send (s : RunState) (i : Nat) (r : Result) (rest : List Result)
      (hw : s.workers[i]? = some (some (r :: rest))) :
      Step s { s with workers := s.workers.set i (some rest)
                      delivered := s.delivered ++ [(i, r)] }
  | done (s : RunState) (i : Nat)
      (hw : s.workers[i]? = some (some [])) :
      Step s { s with workers := s.workers.set i none
                      counter := s.counter - 1 }
  | close (s : RunState)
      (hc : s.counter = 0) (hcl : s.closed = false) :
      Step s { s with closed := true }

/-- All states one execution of `Run` can reach from a given start. -/
abbrev Reachable (s₀ s : RunState) : Prop := Relation.ReflTransGen Step s₀ s

/-- How `Run` itself starts (search.go lines 14–27): retrieve the feeds,
`log.Fatal` on error (before the channel is allocated or any goroutine
started), resolve each feed's matcher and enter the concurrent phase. -/
inductive RunOutcome where
  | fatalStartup (e : String)
  | nilMatcherPanic
  | started (s : RunState)
deriving Repr

/-- `Run` from `search.go`, up to its concurrent phase: the concurrent
phase itself is given by `Step` from `initState`. -/
def Run (matchers : Registry) (searchTerm : String)
    (openRes : Except String String)
    (decode : String → List Feed × Option String) : RunOutcome :=
  let (feeds, err) := RetrieveFeeds openRes decode
  match err with
  | some e => .fatalStartup e
  | none =>
    match runForwards matchers feeds searchTerm with
    | some fss => .started (initState fss)
    | none => .nilMatcherPanic

/-- Results still to be forwarded by a worker. -/
def remaining : WorkerState → List Result
  | some rs => rs
  | none => []

/-- Number of workers that have not yet called `waitGroup.Done()`. -/
def activeCount : List WorkerState → Nat
  | [] => 0
  | some _ :: ws => activeCount ws + 1
  | none :: ws => activeCount ws

/-- The subsequence of results `Display` has received from worker `i`. -/
def deliveredFor (s : RunState) (i : Nat) : List Result :=
  s.delivered.filterMap fun p => if p.1 = i then some p.2 else none

/-- Number of workers that have already called `waitGroup.Done()`. -/
def doneCount : List WorkerState → Nat
  | [] => 0
  | some _ :: ws => doneCount ws
  | none :: ws => doneCount ws + 1

/-- The multiset of results a worker still holds. -/
def resultsOf (w : WorkerState) : Multiset Result := (remaining w : Multiset Result)

/-- A forward list viewed as a multiset of results. -/
def msOf (fs : List Result) : Multiset Result := (fs : Multiset Result)

/-- Per-worker contribution to the termination measure: one unit per
pending result plus one for the pending `waitGroup.Done()`. -/
def wMeasure : WorkerState → Nat
  | some rs => rs.length + 1
  | none => 0

/-- Termination measure for `Step`: pending sends and `Done` calls,
plus one for the pending `close(results)`. -/
def stepMeasure (s : RunState) : Nat :=
  (s.workers.map wMeasure).sum + (if s.closed then 0 else 1)

/-! ### List helper lemmas -/

theorem map_set_sum {α M : Type _} [AddCommMonoid M] (f : α → M) (l : List α) :
    ∀ (i : Nat) (w w' : α), l[i]? = some w →
      ((l.set i w').map f).sum + f w = (l.map f).sum + f w' := by
  induction l with
  | nil => intro i w w' h; simp at h
  | cons a l ih =>
    intro i w w' h
    cases i with
    | zero =>
      simp only [List.getElem?_cons_zero, Option.some.injEq] at h
      subst h
      simp only [List.set_cons_zero, List.map_cons, List.sum_cons]
      abel
    | succ n =>
      simp only [List.getElem?_cons_succ] at h
      have hrec := ih n w w' h
      simp only [List.set_cons_succ, List.map_cons, List.sum_cons]
      calc f a + ((l.set n w').map f).sum + f w
          = f a + (((l.set n w').map f).sum + f w) := by abel
        _ = f a + ((l.map f).sum + f w') := by rw [hrec]
        _ = f a + (l.map f).sum + f w' := by abel

theorem activeCount_map_some (l : List (List Result)) :
    activeCount (l.map some) = l.length := by
  induction l with
  | nil => rfl
  | cons a l ih => simp [activeCount, ih]

theorem activeCount_add_doneCount (ws : List WorkerState) :
    activeCount ws + doneCount ws = ws.length := by
  induction ws with
  | nil => rfl
  | cons a t ih => cases a <;> simp [activeCount, doneCount] <;> omega

theorem activeCount_set_same (ws : List WorkerState) :
    ∀ (i : Nat) (w w' : WorkerState), ws[i]? = some w → w'.isSome = w.isSome →
      activeCount (ws.set i w') = activeCount ws := by
  induction ws with
  | nil => intro i w w' h _; simp at h
  | cons a t ih =>
    intro i w w' h hss
    cases i with
    | zero =>
      simp only [List.getElem?_cons_zero, Option.some.injEq] at h
      subst h
      simp only [List.set_cons_zero]
      cases a with
      | some rs =>
        obtain ⟨x, hx⟩ := Option.isSome_iff_exists.mp hss
        subst hx; simp [activeCount]
      | none =>
        cases w' with
        | some x => simp at hss
        | none => rfl
    | succ n =>
      simp only [List.getElem?_cons_succ] at h
      simp only [List.set_cons_succ]
      cases a <;> simp [activeCount, ih n w w' h hss]

theorem activeCount_set_none (ws : List WorkerState) :
    ∀ (i : Nat) (rs : List Result), ws[i]? = some (some rs) →
      activeCount (ws.set i none) + 1 = activeCount ws := by
  induction ws with
  | nil => intro i rs h; simp at h
  | cons a t ih =>
    intro i rs h
    cases i with
    | zero =>
      simp only [List.getElem?_cons_zero, Option.some.injEq] at h
      subst h
      simp [activeCount]
    | succ n =>
      simp only [List.getElem?_cons_succ] at h
      simp only [List.set_cons_succ]
      cases a <;> simp [activeCount, ← ih n rs h]

theorem exists_active (ws : List WorkerState) (h : activeCount ws ≠ 0) :
    ∃ (i : Nat) (rs : List Result), ws[i]? = some (some rs) := by
  induction ws with
  | nil => simp [activeCount] at h
  | cons a t ih =>
    cases a with
    | some rs => exact ⟨0, rs, by simp⟩
    | none =>
      simp only [activeCount] at h
      obtain ⟨i, rs, hi⟩ := ih h
      exact ⟨i + 1, rs, by simpa using hi⟩

theorem activeCount_pos (ws : List WorkerState) :
    ∀ (i : Nat) (rs : List Result), ws[i]? = some (some rs) → activeCount ws ≠ 0 := by
  induction ws with
  | nil => intro i rs h; simp at h
  | cons a t ih =>
    intro i rs h
    cases i with
    | zero =>
      simp only [List.getElem?_cons_zero, Option.some.injEq] at h
      subst h; simp [activeCount]
    | succ n =>
      simp only [List.getElem?_cons_succ] at h
      cases a with
      | some x => simp [activeCount]
      | none => simpa [activeCount] using ih n rs h

theorem all_none_of_activeCount_zero (ws : List WorkerState) (h : activeCount ws = 0) :
    ∀ (i : Nat) (w : WorkerState), ws[i]? = some w → w = none := by
  intro i w hw
  cases w with
  | none => rfl
  | some rs => exact absurd h (activeCount_pos ws i rs hw)

theorem remaining_sum_zero (ws : List WorkerState) (h : activeCount ws = 0) :
    (ws.map resultsOf).sum = 0 := by
  induction ws with
  | nil => rfl
  | cons a t ih =>
    cases a with
    | some rs => simp [activeCount] at h
    | none =>
      simp only [activeCount] at h
      simp [resultsOf, remaining, ih h]

/-! ### The run invariant -/

/-- Invariant tying a run's state to the per-worker forward lists it was
started with: the worker list keeps its length; the `WaitGroup` counter
equals the number of workers that have not yet called `Done`; the channel
is closed only with the counter at zero; each worker's forward list
splits into what `Display` has already received from it followed by what
the worker still holds; and no result is lost or duplicated in between. -/
structure Inv (fss : List (List Result)) (s : RunState) : Prop where
  len_eq : s.workers.length = fss.length
  counter_eq : s.counter = activeCount s.workers
  closed_zero : s.closed = true → s.counter = 0
  decomp : ∀ (i : Nat) (fs : List Result) (w : WorkerState),
      fss[i]? = some fs → s.workers[i]? = some w →
      fs = deliveredFor s i ++ remaining w
  ms : (s.delivered.map Prod.snd : Multiset Result) + (s.workers.map resultsOf).sum
      = (fss.map msOf).sum

theorem init_inv (fss : List (List Result)) : Inv fss (initState fss) := by
  refine ⟨?_, ?_, ?_, ?_, ?_⟩
  · simp [initState]
  · simp [initState, activeCount_map_some]
  · intro h; simp [initState] at h
  · intro i fs w hf hw
    simp only [initState, List.getElem?_map, hf, Option.map_some'] at hw
    cases hw
    simp [deliveredFor, initState, remaining]
  · show ((([] : List (Nat × Result)).map Prod.snd : List Result) : Multiset Result)
        + ((fss.map some).map resultsOf).sum
        = (fss.map msOf).sum
    rw [List.map_map]
    have hcomp : resultsOf ∘ some = msOf := by
      funext x; rfl
    rw [hcomp, List.map_nil, Multiset.coe_nil, zero_add]

theorem projFor_snoc (d : List (Nat × Result)) (i j : Nat) (r : Result) :
    List.filterMap (fun p => if p.1 = j then some p.2 else none) (d ++ [(i, r)])
      = List.filterMap (fun p => if p.1 = j then some p.2 else none) d
        ++ (if i = j then [r] else []) := by
  rw [List.filterMap_append]
  by_cases h : i = j <;> simp [h]

theorem step_inv {fss : List (List Result)} {s s' : RunState}
    (hstep : Step s s') (hinv : Inv fss s) : Inv fss s' := by
  cases hstep with
  | send i r rest hw =>
    have hlt : i < s.workers.length := (List.getElem?_eq_some.mp hw).1
    refine ⟨?_, ?_, ?_, ?_, ?_⟩
    · simpa using hinv.len_eq
    · show s.counter = activeCount (s.workers.set i (some rest))
      rw [activeCount_set_same s.workers i (some (r :: rest)) (some rest) hw rfl]
      exact hinv.counter_eq
    · exact hinv.closed_zero
    · intro j fs w hf hw'
      show fs = List.filterMap (fun p => if p.1 = j then some p.2 else none)
          (s.delivered ++ [(i, r)]) ++ remaining w
      rw [projFor_snoc]
      by_cases hij : i = j
      · subst hij
        rw [if_pos rfl]
        rw [show (s.workers.set i (some rest))[i]? = some (some rest) from
          List.getElem?_set_eq_of_lt _ hlt] at hw'
        cases hw'
        have hd := hinv.decomp i fs (some (r :: rest)) hf hw
        simp only [deliveredFor] at hd
        simp only [remaining] at hd ⊢
        rw [hd, List.append_assoc]
        simp
      · rw [if_neg hij, List.append_nil]
        rw [show (s.workers.set i (some rest))[j]? = s.workers[j]? from
          List.getElem?_set_ne hij] at hw'
        have hd := hinv.decomp j fs w hf hw'
        simp only [deliveredFor] at hd
        exact hd
    · have hset := map_set_sum resultsOf s.workers i (some (r :: rest)) (some rest) hw
      have hcons : resultsOf (some (r :: rest)) = {r} + resultsOf (some rest) := by
        simp only [resultsOf, remaining, ← Multiset.cons_coe, Multiset.singleton_add]
      rw [hcons, ← add_assoc] at hset
      have hset' : ((s.workers.set i (some rest)).map resultsOf).sum + {r}
          = (s.workers.map resultsOf).sum := add_right_cancel hset
      show ((s.delivered ++ [(i, r)]).map Prod.snd : Multiset Result)
          + ((s.workers.set i (some rest)).map resultsOf).sum
          = (fss.map msOf).sum
      have hmap : ((s.delivered ++ [(i, r)]).map Prod.snd : List Result)
          = s.delivered.map Prod.snd ++ [r] := by simp
      rw [hmap]
      have hcoe : (↑(s.delivered.map Prod.snd ++ [r]) : Multiset Result)
          = (s.delivered.map Prod.snd : Multiset Result) + {r} := by
        rw [← Multiset.coe_add, Multiset.coe_singleton]
      rw [hcoe]
      calc (s.delivered.map Prod.snd : Multiset Result) + {r}
            + ((s.workers.set i (some rest)).map resultsOf).sum
          = (s.delivered.map Prod.snd : Multiset Result)
            + (((s.workers.set i (some rest)).map resultsOf).sum + {r}) := by abel
        _ = (s.delivered.map Prod.snd : Multiset Result)
            + (s.workers.map resultsOf).sum := by rw [hset']
        _ = (fss.map msOf).sum := hinv.ms
  | done i hw =>
    have hlt : i < s.workers.length := (List.getElem?_eq_some.mp hw).1
    have hcnt := activeCount_set_none s.workers i [] hw
    refine ⟨?_, ?_, ?_, ?_, ?_⟩
    · simpa using hinv.len_eq
    · show s.counter - 1 = activeCount (s.workers.set i none)
      have := hinv.counter_eq
      omega
    · intro hcl
      show s.counter - 1 = 0
      have := hinv.closed_zero hcl
      omega
    · intro j fs w hf hw'
      show fs = deliveredFor s j ++ remaining w
      by_cases hij : j = i
      · subst hij
        rw [show (s.workers.set j none)[j]? = some none from
          List.getElem?_set_eq_of_lt _ hlt] at hw'
        cases hw'
        have hd := hinv.decomp j fs (some []) hf hw
        simpa [remaining] using hd
      · rw [show (s.workers.set i none)[j]? = s.workers[j]? from
          List.getElem?_set_ne (fun h => hij h.symm)] at hw'
        exact hinv.decomp j fs w hf hw'
    · have hset := map_set_sum resultsOf s.workers i (some []) none hw
      have h0 : resultsOf (some ([] : List Result)) = 0 := by
        simp [resultsOf, remaining]
      have h0' : resultsOf none = 0 := by simp [resultsOf, remaining]
      rw [h0, h0', add_zero, add_zero] at hset
      show (s.delivered.map Prod.snd : Multiset Result)
          + ((s.workers.set i none).map resultsOf).sum
          = (fss.map msOf).sum
      rw [hset]
      exact hinv.ms
  | close hc hcl =>
    refine ⟨hinv.len_eq, hinv.counter_eq, fun _ => hc, ?_, hinv.ms⟩
    intro j fs w hf hw'
    exact hinv.decomp j fs w hf hw'

theorem reachable_inv {fss : List (List Result)} {s : RunState}
    (h : Reachable (initState fss) s) : Inv fss s := by
  induction h with
  | refl => exact init_inv fss
  | tail _ hstep ih => exact step_inv hstep ih

/-! ### Termination and progress -/

theorem step_measure_lt {s s' : RunState} (h : Step s s') :
    stepMeasure s' < stepMeasure s := by
  cases h with
  | send i r rest hw =>
    have hset := map_set_sum wMeasure s.workers i (some (r :: rest)) (some rest) hw
    simp only [wMeasure, List.length_cons] at hset
    show ((s.workers.set i (some rest)).map wMeasure).sum + (if s.closed then 0 else 1)
        < (s.workers.map wMeasure).sum + (if s.closed then 0 else 1)
    omega
  | done i hw =>
    have hset := map_set_sum wMeasure s.workers i (some []) none hw
    simp only [wMeasure] at hset
    show ((s.workers.set i none).map wMeasure).sum + (if s.closed then 0 else 1)
        < (s.workers.map wMeasure).sum + (if s.closed then 0 else 1)
    omega
  | close hc hcl =>
    show (s.workers.map wMeasure).sum + (if true then 0 else 1)
        < (s.workers.map wMeasure).sum + (if s.closed then 0 else 1)
    rw [hcl]
    simp

theorem run_progress {fss : List (List Result)} {s : RunState}
    (h : Reachable (initState fss) s) (hcl : s.closed = false) :
    ∃ s', Step s s' := by
  have hinv := reachable_inv h
  by_cases hz : activeCount s.workers = 0
  · exact ⟨_, Step.close s (hinv.counter_eq.trans hz) hcl⟩
  · obtain ⟨i, rs, hi⟩ := exists_active s.workers hz
    cases rs with
    | nil => exact ⟨_, Step.done s i hi⟩
    | cons r rest => exact ⟨_, Step.send s i r rest hi⟩

/-! ### Lemmas about `List.mapM` over `Option` and matcher resolution -/

theorem mapM_isSome {α β : Type _} (g : α → Option β) :
    ∀ l : List α, (∀ a ∈ l, (g a).isSome = true) → (l.mapM g).isSome = true := by
  intro l
  induction l with
  | nil => intro _; rfl
  | cons x xs ih =>
    intro hall
    rw [List.mapM_cons]
    obtain ⟨b, hb⟩ := Option.isSome_iff_exists.mp (hall x (List.mem_cons_self x xs))
    obtain ⟨bs, hbs⟩ := Option.isSome_iff_exists.mp
      (ih fun a ha => hall a (List.mem_cons_of_mem x ha))
    rw [hb, hbs]
    rfl

theorem mapM_get {α β : Type _} (g : α → Option β) :
    ∀ (l : List α) (res : List β), l.mapM g = some res →
      ∀ (i : Nat) (a : α), l[i]? = some a → ∃ b, g a = some b ∧ res[i]? = some b := by
  intro l
  induction l with
  | nil => intro res _ i a ha; simp at ha
  | cons x xs ih =>
    intro res hres i a ha
    rw [List.mapM_cons] at hres
    cases hx : g x with
    | none => rw [hx] at hres; simp at hres
    | some b =>
      rw [hx] at hres
      cases hxs : xs.mapM g with
      | none => rw [hxs] at hres; simp at hres
      | some bs =>
        rw [hxs] at hres
        simp only [Option.pure_def, Option.bind_eq_bind, Option.some_bind,
          Option.some.injEq] at hres
        subst hres
        cases i with
        | zero =>
          simp only [List.getElem?_cons_zero, Option.some.injEq] at ha
          subst ha
          exact ⟨b, hx, by simp⟩
        | succ n =>
          simp only [List.getElem?_cons_succ] at ha ⊢
          exact ih bs hxs n a ha

theorem mapM_length {α β : Type _} (g : α → Option β) :
    ∀ (l : List α) (res : List β), l.mapM g = some res → res.length = l.length := by
  intro l
  induction l with
  | nil =>
    intro res hres
    simp only [List.mapM_nil, Option.pure_def, Option.some.injEq] at hres
    simp [← hres]
  | cons x xs ih =>
    intro res hres
    rw [List.mapM_cons] at hres
    cases hx : g x with
    | none => rw [hx] at hres; simp at hres
    | some b =>
      rw [hx] at hres
      cases hxs : xs.mapM g with
      | none => rw [hxs] at hres; simp at hres
      | some bs =>
        rw [hxs] at hres
        simp only [Option.pure_def, Option.bind_eq_bind, Option.some_bind,
          Option.some.injEq] at hres
        subst hres
        simp [ih bs hxs]

theorem resolveMatcher_isSome (matchers : Registry) (dm : Matcher) (t : String)
    (hdef : List.lookup "default" matchers = some dm) :
    (resolveMatcher matchers t).isSome = true := by
  unfold resolveMatcher
  cases h : List.lookup t matchers with
  | some m => rfl
  | none => rw [hdef]; rfl

theorem runForwards_isSome (matchers : Registry) (feeds : List Feed)
    (searchTerm : String) (dm : Matcher)
    (hdef : List.lookup "default" matchers = some dm) :
    (runForwards matchers feeds searchTerm).isSome = true := by
  unfold runForwards
  apply mapM_isSome
  intro f _
  have h := resolveMatcher_isSome matchers dm f.type hdef
  obtain ⟨m, hm⟩ := Option.isSome_iff_exists.mp h
  rw [hm]
  rfl

/-- A non-nil error from `Search` makes `Match` log it and forward
nothing (match.go lines 22–25). -/
theorem Match_err (m : Matcher) (feed : Feed) (searchTerm : String) (e : String)
    (he : (m feed searchTerm).2 = some e) :
    Match m feed searchTerm = ([], [e]) := by
  unfold Match
  cases hp : m feed searchTerm with
  | mk rs err =>
    rw [hp] at he
    simp only at he
    subst he
    rfl

/-- A nil error from `Search` makes `Match` forward exactly the result
slice, in order (match.go lines 26–28). -/
theorem Match_ok (m : Matcher) (feed : Feed) (searchTerm : String) (rs : List Result)
    (hs : m feed searchTerm = (rs, none)) :
    Match m feed searchTerm = (rs, []) := by
  unfold Match
  rw [hs]

/-! ### Concrete fixtures for witnesses -/

/-- A matcher whose `Search` always fails. -/
def failingMatcher : Matcher := fun _ _ => ([], some "search failed")

/-- A matcher whose `Search` always succeeds with two results. -/
def titleMatcher : Matcher :=
  fun _ _ => ([⟨"Title", "r1"⟩, ⟨"Title", "r2"⟩], none)

/-- A matcher returning both a non-empty result slice and a non-nil
error. -/
def mixedMatcher : Matcher :=
  fun _ _ => ([⟨"Title", "x found"⟩], some "partial failure")

/-- A registry with the default matcher and a failing `"fail"` matcher. -/
def regFail : Registry := [("fail", failingMatcher), ("default", defaultMatcher)]

/-- A feed of type `"fail"`. -/
def feedF : Feed := ⟨"B", "u", "fail"⟩

/-- A decoder outcome standing in for `json.Decode` succeeding on an
empty feed array. -/
def decodeNone : String → List Feed × Option String := fun _ => ([], none)

/-! ### Claims -/

/-- C1: with the `"default"` matcher bound (as `init` in default.go
guarantees), for every feed list of any length N ≥ 0 and every search
term the per-worker forward lists exist, the worker counter starts at
the feed count (zero for zero feeds, so the sentinel's `close` is
immediately enabled), every step strictly decreases `stepMeasure` (so no
execution of the concurrent phase runs forever), no reachable state with
the channel still open is stuck, and any reachable stuck state has the
channel closed — hence `Run` terminates and the `Display` drain loop
exits, no matter how many matchers fail. -/
theorem run_terminates_and_drains (matchers : Registry) (searchTerm : String)
    (feeds : List Feed) (dm : Matcher)
    (hdef : List.lookup "default" matchers = some dm) :
    ∃ fss, runForwards matchers feeds searchTerm = some fss ∧
      fss.length = feeds.length ∧
      (initState fss).counter = feeds.length ∧
      (∀ s s', Step s s' → stepMeasure s' < stepMeasure s) ∧
      (∀ s, Reachable (initState fss) s → s.closed = false → ∃ s', Step s s') ∧
      (∀ s, Reachable (initState fss) s → (∀ s', ¬ Step s s') → s.closed = true) := by
  obtain ⟨fss, hfss⟩ := Option.isSome_iff_exists.mp
    (runForwards_isSome matchers feeds searchTerm dm hdef)
  have hfss' : feeds.mapM
      (fun f => (resolveMatcher matchers f.type).map fun m => (Match m f searchTerm).1)
      = some fss := hfss
  have hlen : fss.length = feeds.length := mapM_length _ feeds fss hfss'
  refine ⟨fss, hfss, hlen, ?_, ?_, ?_, ?_⟩
  · show fss.length = feeds.length
    exact hlen
  · intro s s' h
    exact step_measure_lt h
  · intro s hr hcl
    exact run_progress hr hcl
  · intro s hr hstuck
    cases hc : s.closed with
    | true => rfl
    | false =>
      obtain ⟨s', hs'⟩ := run_progress hr hc
      exact absurd hs' (hstuck s')

/-- Witness for C1 at the zero-feed edge case. -/
theorem run_terminates_and_drains_witness :
    List.lookup "default" [("default", defaultMatcher)] = some defaultMatcher ∧
    (∃ fss, runForwards [("default", defaultMatcher)] [] "president" = some fss ∧
      fss.length = ([] : List Feed).length ∧
      (initState fss).counter = ([] : List Feed).length ∧
      (∀ s s', Step s s' → stepMeasure s' < stepMeasure s) ∧
      (∀ s, Reachable (initState fss) s → s.closed = false → ∃ s', Step s s') ∧
      (∀ s, Reachable (initState fss) s → (∀ s', ¬ Step s s') → s.closed = true)) :=
  ⟨rfl, run_terminates_and_drains [("default", defaultMatcher)] "president" []
    defaultMatcher rfl⟩

/-- C2: `Register` on a type tag already bound in the registry takes the
`log.Fatalln` branch — the process terminates with a fatal configuration
error (`none`) and no registry in which the old binding was overwritten
is ever produced. -/
theorem register_duplicate_fatal (matchers : Registry) (feedType : String)
    (matcher : Matcher) (h : (List.lookup feedType matchers).isSome = true) :
    Register matchers feedType matcher = none := by
  unfold Register
  obtain ⟨m', hm'⟩ := Option.isSome_iff_exists.mp h
  rw [hm']

/-- Witness for C2: re-registering `"default"` is fatal. -/
theorem register_duplicate_fatal_witness :
    (List.lookup "default" [("default", defaultMatcher)]).isSome = true ∧
    Register [("default", defaultMatcher)] "default" defaultMatcher = none :=
  ⟨rfl, register_duplicate_fatal [("default", defaultMatcher)] "default"
    defaultMatcher rfl⟩

/-- C3: when a matcher's `Search` fails for a feed, `Match` logs the
error and forwards zero results (it returns normally, so the run is not
aborted), and in every reachable state of any run in which that worker's
forward list is slot `i`, the Sink has received nothing from worker `i`. -/
theorem matcher_failure_logged_not_delivered (m : Matcher) (feed : Feed)
    (searchTerm e : String) (he : (m feed searchTerm).2 = some e)
    (fss : List (List Result)) (i : Nat)
    (hfi : fss[i]? = some ((Match m feed searchTerm).1))
    (s : RunState) (hr : Reachable (initState fss) s) :
    Match m feed searchTerm = ([], [e]) ∧ deliveredFor s i = [] := by
  have hm := Match_err m feed searchTerm e he
  refine ⟨hm, ?_⟩
  have hinv := reachable_inv hr
  have hfi' : fss[i]? = some [] := by rw [hm] at hfi; exact hfi
  have hlt : i < fss.length := (List.getElem?_eq_some.mp hfi').1
  have hlt' : i < s.workers.length := by rw [hinv.len_eq]; exact hlt
  obtain ⟨w, hw⟩ : ∃ w, s.workers[i]? = some w := ⟨_, List.getElem?_eq_getElem hlt'⟩
  have hd := hinv.decomp i [] w hfi' hw
  exact (List.append_eq_nil.mp hd.symm).1

/-- Witness for C3 with the always-failing matcher. -/
theorem matcher_failure_logged_not_delivered_witness :
    (failingMatcher feedF "x").2 = some "search failed" ∧
    ([([] : List Result)])[0]? = some ((Match failingMatcher feedF "x").1) ∧
    (Match failingMatcher feedF "x" = ([], ["search failed"]) ∧
      deliveredFor (initState [[]]) 0 = []) :=
  ⟨rfl, by simp [Match, failingMatcher],
    matcher_failure_logged_not_delivered failingMatcher feedF "x" "search failed" rfl
      [[]] 0 (by simp [Match, failingMatcher]) (initState [[]])
      Relation.ReflTransGen.refl⟩

/-- C4: a worker whose `Search` succeeded with results `rs` forwards
exactly `rs` into the shared channel, and in every reachable state the
results the Sink has received from that worker form an initial segment
of `rs`, in the worker's order — so `r1` is observed before `r2` before
`…` before `rk`, arbitrarily interleaved with other workers' results. -/
theorem worker_success_order (m : Matcher) (feed : Feed) (searchTerm : String)
    (rs : List Result) (hs : m feed searchTerm = (rs, none))
    (fss : List (List Result)) (i : Nat)
    (hfi : fss[i]? = some ((Match m feed searchTerm).1))
    (s : RunState) (hr : Reachable (initState fss) s) :
    (Match m feed searchTerm).1 = rs ∧
    ∃ rest, deliveredFor s i ++ rest = rs := by
  have hm := Match_ok m feed searchTerm rs hs
  have h1 : (Match m feed searchTerm).1 = rs := by rw [hm]
  refine ⟨h1, ?_⟩
  have hinv := reachable_inv hr
  have hfi' : fss[i]? = some rs := by rw [h1] at hfi; exact hfi
  have hlt : i < fss.length := (List.getElem?_eq_some.mp hfi').1
  have hlt' : i < s.workers.length := by rw [hinv.len_eq]; exact hlt
  obtain ⟨w, hw⟩ : ∃ w, s.workers[i]? = some w := ⟨_, List.getElem?_eq_getElem hlt'⟩
  exact ⟨remaining w, (hinv.decomp i rs w hfi' hw).symm⟩

/-- Witness for C4 with a two-result matcher. -/
theorem worker_success_order_witness :
    titleMatcher feedF "x" = ([⟨"Title", "r1"⟩, ⟨"Title", "r2"⟩], none) ∧
    ([[⟨"Title", "r1"⟩, ⟨"Title", "r2"⟩]] : List (List Result))[0]?
      = some ((Match titleMatcher feedF "x").1) ∧
    ((Match titleMatcher feedF "x").1 = [⟨"Title", "r1"⟩, ⟨"Title", "r2"⟩] ∧
      ∃ rest, deliveredFor (initState [[⟨"Title", "r1"⟩, ⟨"Title", "r2"⟩]]) 0 ++ rest
        = [⟨"Title", "r1"⟩, ⟨"Title", "r2"⟩]) :=
  ⟨rfl, by simp [Match, titleMatcher],
    worker_success_order titleMatcher feedF "x" [⟨"Title", "r1"⟩, ⟨"Title", "r2"⟩] rfl
      [[⟨"Title", "r1"⟩, ⟨"Title", "r2"⟩]] 0 (by simp [Match, titleMatcher])
      (initState [[⟨"Title", "r1"⟩, ⟨"Title", "r2"⟩]]) Relation.ReflTransGen.refl⟩

/-- C5: in every reachable state, (a) any step that turns the channel
from open to closed is the sentinel's `close` and can happen only with
the counter at zero, every worker's `Done` already run, and no
unforwarded result held by any worker — never before the last worker's
forward; and (b) once the channel is closed no step of any kind exists,
so in particular no second `close` can ever occur: the channel is closed
exactly once, by the sole closer. -/
theorem sentinel_sole_closer (fss : List (List Result)) (s : RunState)
    (hr : Reachable (initState fss) s) :
    (∀ s', Step s s' → s'.closed = true → s.closed = false →
      s.counter = 0 ∧ activeCount s.workers = 0 ∧ (s.workers.map resultsOf).sum = 0) ∧
    (s.closed = true → ∀ s', ¬ Step s s') := by
  have hinv := reachable_inv hr
  constructor
  · intro s' hst hcl' hcl
    cases hst with
    | send i r rest hw =>
      have hc : s.closed = true := hcl'
      rw [hcl] at hc
      cases hc
    | done i hw =>
      have hc : s.closed = true := hcl'
      rw [hcl] at hc
      cases hc
    | close hc hcl2 =>
      have hac : activeCount s.workers = 0 := by rw [← hinv.counter_eq]; exact hc
      exact ⟨hc, hac, remaining_sum_zero s.workers hac⟩
  · intro hcl s' hst
    have hc0 : s.counter = 0 := hinv.closed_zero hcl
    have hac : activeCount s.workers = 0 := by rw [← hinv.counter_eq]; exact hc0
    cases hst with
    | send i r rest hw => exact activeCount_pos s.workers i (r :: rest) hw hac
    | done i hw => exact activeCount_pos s.workers i [] hw hac
    | close hc hcl2 => rw [hcl] at hcl2; cases hcl2

/-- Witness for C5 at the freshly started zero-feed state. -/
theorem sentinel_sole_closer_witness :
    Reachable (initState []) (initState []) ∧
    ((∀ s', Step (initState []) s' → s'.closed = true → (initState []).closed = false →
      (initState []).counter = 0 ∧ activeCount (initState []).workers = 0 ∧
      ((initState []).workers.map resultsOf).sum = 0) ∧
    ((initState []).closed = true → ∀ s', ¬ Step (initState []) s')) :=
  ⟨Relation.ReflTransGen.refl,
    sentinel_sole_closer [] (initState []) Relation.ReflTransGen.refl⟩

/-- C6: a feed whose type tag has no binding in the registry resolves to
the `"default"` matcher (the fallback of search.go lines 32–35), and the
default matcher registered by default.go returns an empty result
sequence with no error on every feed and search term, so such a feed's
worker forwards zero results and logs nothing. -/
theorem default_fallback (matchers : Registry) (feedType : String)
    (feed : Feed) (searchTerm : String)
    (hnone : List.lookup feedType matchers = none)
    (hdef : List.lookup "default" matchers = some defaultMatcher) :
    resolveMatcher matchers feedType = some defaultMatcher ∧
    defaultMatcher feed searchTerm = ([], none) ∧
    Match defaultMatcher feed searchTerm = ([], []) := by
  refine ⟨?_, rfl, rfl⟩
  unfold resolveMatcher
  rw [hnone, hdef]

/-- Witness for C6: an unregistered `"rss"` tag falls back to default. -/
theorem default_fallback_witness :
    List.lookup "rss" [("default", defaultMatcher)] = none ∧
    List.lookup "default" [("default", defaultMatcher)] = some defaultMatcher ∧
    (resolveMatcher [("default", defaultMatcher)] "rss" = some defaultMatcher ∧
      defaultMatcher feedF "president" = ([], none) ∧
      Match defaultMatcher feedF "president" = ([], [])) :=
  ⟨rfl, rfl, default_fallback [("default", defaultMatcher)] "rss" feedF "president"
    rfl rfl⟩

/-- C7: the `WaitGroup` counter plus the number of workers whose
deferred `waitGroup.Done()` has run always equals the initial worker
count — each worker decrements exactly once on its unique completion
path, whether its `Search` succeeded (non-empty or empty forward list)
or failed (empty forward list) — and once the channel is closed every
worker has decremented and the counter is zero. -/
theorem done_exactly_once (fss : List (List Result)) (s : RunState)
    (hr : Reachable (initState fss) s) :
    s.counter + doneCount s.workers = fss.length ∧
    (s.closed = true → s.counter = 0 ∧ doneCount s.workers = fss.length) := by
  have hinv := reachable_inv hr
  have hlen := hinv.len_eq
  have hsum := activeCount_add_doneCount s.workers
  have hc := hinv.counter_eq
  constructor
  · omega
  · intro hcl
    have h0 := hinv.closed_zero hcl
    omega

/-- Witness for C7 at a one-worker start state. -/
theorem done_exactly_once_witness :
    Reachable (initState [[]]) (initState [[]]) ∧
    ((initState [[]]).counter + doneCount (initState [[]]).workers
        = ([([] : List Result)]).length ∧
    ((initState [[]]).closed = true → (initState [[]]).counter = 0 ∧
      doneCount (initState [[]]).workers = ([([] : List Result)]).length)) :=
  ⟨Relation.ReflTransGen.refl,
    done_exactly_once [[]] (initState [[]]) Relation.ReflTransGen.refl⟩

/-- C8: when the matcher resolved for feed `i` fails, its forward list
is empty, and in every completed run state (channel closed) every worker
`j` — in particular every successful one — has delivered its entire
forward list to the Sink; the multiset of all delivered results equals
the sum of the per-worker forward multisets, i.e. the union of the
successful workers' result sequences. -/
theorem isolation_full_delivery (matchers : Registry) (searchTerm : String)
    (feeds : List Feed) (i : Nat) (fi : Feed) (m : Matcher) (e : String)
    (hfi : feeds[i]? = some fi)
    (hm : resolveMatcher matchers fi.type = some m)
    (hfail : (m fi searchTerm).2 = some e)
    (fss : List (List Result))
    (hfss : runForwards matchers feeds searchTerm = some fss)
    (s : RunState) (hr : Reachable (initState fss) s) (hcl : s.closed = true) :
    fss[i]? = some [] ∧
    (∀ (j : Nat) (fs : List Result), fss[j]? = some fs → deliveredFor s j = fs) ∧
    (s.delivered.map Prod.snd : Multiset Result) = (fss.map msOf).sum := by
  have hinv := reachable_inv hr
  have hac : activeCount s.workers = 0 := by
    rw [← hinv.counter_eq]
    exact hinv.closed_zero hcl
  have hfss' : feeds.mapM
      (fun f => (resolveMatcher matchers f.type).map fun m => (Match m f searchTerm).1)
      = some fss := hfss
  refine ⟨?_, ?_, ?_⟩
  · obtain ⟨b, hb, hres⟩ := mapM_get _ feeds fss hfss' i fi hfi
    simp only [hm, Option.map_some', Option.some.injEq] at hb
    rw [← hb, Match_err m fi searchTerm e hfail] at hres
    exact hres
  · intro j fs hfj
    have hlt : j < fss.length := (List.getElem?_eq_some.mp hfj).1
    have hlt' : j < s.workers.length := by rw [hinv.len_eq]; exact hlt
    obtain ⟨w, hw⟩ : ∃ w, s.workers[j]? = some w := ⟨_, List.getElem?_eq_getElem hlt'⟩
    have hwn : w = none := all_none_of_activeCount_zero s.workers hac j w hw
    rw [hwn] at hw
    have hd := hinv.decomp j fs none hfj hw
    simpa [remaining] using hd.symm
  · have hms := hinv.ms
    rw [remaining_sum_zero s.workers hac, add_zero] at hms
    exact hms

/-- Witness for C8: a completed run over one failing feed. -/
theorem isolation_full_delivery_witness :
    ([feedF] : List Feed)[0]? = some feedF ∧
    resolveMatcher regFail feedF.type = some failingMatcher ∧
    (failingMatcher feedF "x").2 = some "search failed" ∧
    runForwards regFail [feedF] "x" = some [[]] ∧
    Reachable (initState [[]]) ⟨[none], 0, true, []⟩ ∧
    (([[]] : List (List Result))[0]? = some [] ∧
      (∀ (j : Nat) (fs : List Result), ([[]] : List (List Result))[j]? = some fs →
        deliveredFor ⟨[none], 0, true, []⟩ j = fs) ∧
      (((⟨[none], 0, true, []⟩ : RunState).delivered.map Prod.snd : Multiset Result)
        = (([[]] : List (List Result)).map msOf).sum)) := by
  have h1 : Step (initState [[]]) ⟨[none], 0, false, []⟩ := by
    have hw : (initState [[]]).workers[0]? = some (some []) := by
      simp [initState]
    exact Step.done (initState [[]]) 0 hw
  have h2 : Step (⟨[none], 0, false, []⟩ : RunState) ⟨[none], 0, true, []⟩ :=
    Step.close ⟨[none], 0, false, []⟩ rfl rfl
  have hr : Reachable (initState [[]]) ⟨[none], 0, true, []⟩ :=
    Relation.ReflTransGen.head h1 (Relation.ReflTransGen.head h2 Relation.ReflTransGen.refl)
  refine ⟨by simp, rfl, rfl, rfl, hr, ?_⟩
  exact isolation_full_delivery regFail "x" [feedF] 0 feedF failingMatcher
    "search failed" (by simp) rfl rfl [[]] rfl ⟨[none], 0, true, []⟩ hr rfl

/-- C9: if `RetrieveFeeds` reports an error — the feed source was
unreadable (open failed) or malformed (decode failed) — `Run` reaches
`log.Fatal` immediately: the outcome is `fatalStartup`, determined
before any run state (result channel, workers) is constructed; and when
opening and decoding both succeed, `RetrieveFeeds` returns exactly the
decoder's full feed list with no error. -/
theorem retrieve_error_fatal_startup (matchers : Registry) (searchTerm : String)
    (openRes : Except String String) (decode : String → List Feed × Option String) :
    (∀ e : String, (RetrieveFeeds openRes decode).2 = some e →
      Run matchers searchTerm openRes decode = .fatalStartup e) ∧
    (∀ (c : String) (feeds : List Feed), openRes = .ok c → decode c = (feeds, none) →
      RetrieveFeeds openRes decode = (feeds, none)) := by
  constructor
  · intro e he
    cases hp : RetrieveFeeds openRes decode with
    | mk feeds err =>
      rw [hp] at he
      simp only at he
      subst he
      unfold Run
      rw [hp]
  · intro c feeds hc hd
    subst hc
    unfold RetrieveFeeds
    exact hd

/-- Witness for C9: an unreadable data file aborts the run fatally. -/
theorem retrieve_error_fatal_startup_witness :
    (RetrieveFeeds (.error "open data/data.json: no such file or directory")
      decodeNone).2 = some "open data/data.json: no such file or directory" ∧
    Run [("default", defaultMatcher)] "president"
      (.error "open data/data.json: no such file or directory") decodeNone
      = .fatalStartup "open data/data.json: no such file or directory" :=
  ⟨rfl, (retrieve_error_fatal_startup [("default", defaultMatcher)] "president"
      (.error "open data/data.json: no such file or directory") decodeNone).1
    "open data/data.json: no such file or directory" rfl⟩

/-- C10: implicit in match.go lines 21–28 — the error check precedes the
forwarding loop, so when `Search` returns a non-empty result slice
together with a non-nil error, the worker forwards none of those
results: the error branch wins and the accompanying results are
discarded. -/
theorem error_discards_partial_results (m : Matcher) (feed : Feed)
    (searchTerm : String) (rs : List Result) (e : String)
    (hs : m feed searchTerm = (rs, some e)) (_hne : rs ≠ []) :
    Match m feed searchTerm = ([], [e]) :=
  Match_err m feed searchTerm e (by rw [hs])

/-- Witness for C10 with a matcher returning one result and an error. -/
theorem error_discards_partial_results_witness :
    mixedMatcher feedF "x" = ([⟨"Title", "x found"⟩], some "partial failure") ∧
    ([(⟨"Title", "x found"⟩ : Result)] ≠ []) ∧
    Match mixedMatcher feedF "x" = ([], ["partial failure"]) :=
  ⟨rfl, by simp,
    error_discards_partial_results mixedMatcher feedF "x" [⟨"Title", "x found"⟩]
      "partial failure" rfl (by simp)⟩

end SearchInfo
